import Mathlib

/-!
Verification of the persona aggregation and segmentation pipeline
(`Rule_Based_Classification.py`).

The script builds, from a batch of transaction records, a table mapping
persona keys (country, platform/source, sex, age bucket) to mean revenue,
then splits personas into four quartile segments.  We embed the pipeline
shallowly:

* strings are modelled as `List Char`; uppercase / lowercase via the
  ASCII-only `Char.toUpper` / `Char.toLower`, matching Python `str.upper`
  and `str.lower` on the ASCII categorical codes used by the script;
* `pd.cut(ages, [0, 19, 24, 31, 41, 70], right=False)` is modelled by
  `bucketOf`, which returns the unique half-open interval containing the
  age (or `none` outside the covered range, where pandas yields NaN);
* the two-stage groupby of the script (first by the raw 4-tuple, then by
  the derived key string) is modelled by `agg_df` and `agg_df_final`;
  `pandas` `groupby.mean` keeps one row per distinct group value, which we
  model by deduplicating the group values and averaging the prices of the
  matching rows.  The script also sorts `agg_df` by value; row order is
  irrelevant to the properties below, so the model keeps dedup order;
* `pd.qcut(prices, 4, labels=["D","C","B","A"])` is modelled by linear
  interpolation quantile edges over the sorted values at probabilities
  1/4, 2/4, 3/4, 4/4 and a right-closed binning (`segIdx`); qcut raises
  on duplicate edges, so the model describes the assignment produced
  whenever construction succeeds;
* the interactive lookup helpers `define_interval`, `clb_country`,
  `clb_source`, `clb_sex`, `clb_age` are modelled as pure functions of
  the batch data they consult and of the user input.
-/

/-- One raw transaction record (one row of `persona.csv`):
country, source (platform), sex as categorical codes, integer age,
rational price. -/
structure Record where
  country : List Char
  source : List Char
  sex : List Char
  age : Int
  price : ℚ

/-- A half-open age interval `[left, right)` as produced by
`pd.cut(..., right=False)`. -/
structure AgeBucket where
  left : Int
  right : Int
deriving DecidableEq

/-- The bin boundaries passed to `pd.cut` at lines 75 and 130 of the
script: `[0, 19, 24, 31, 41, 70]`. -/
def bucketBounds : List Int := [0, 19, 24, 31, 41, 70]

/-- The buckets `pd.cut` builds from consecutive boundary pairs:
`[0,19), [19,24), [24,31), [31,41), [41,70)`. -/
def buckets : List AgeBucket :=
  (bucketBounds.zip bucketBounds.tail).map (fun p => ⟨p.1, p.2⟩)

/-- Construction-time bucket assignment: the bucket `pd.cut` assigns to
an age (line 75), i.e. the unique configured bucket with
`left ≤ age < right`; `none` models pandas NaN for an uncovered age. -/
def bucketOf (age : Int) : Option AgeBucket :=
  buckets.find? (fun b => decide (b.left ≤ age ∧ age < b.right))

/-- Lookup-time bucketizer (script lines 129-132): iterates over
`pd.cut(agg_df["AGE"], [0,19,24,31,41,70], right=False)` — that is, over
the per-row buckets of the ages present in the aggregation table — and
returns the first interval `i` with `age >= i.left and age < i.right`.
The iterated list is `ages.filterMap bucketOf`: one bucket per observed
in-range age, in table order. -/
def define_interval (ages : List Int) (age : Int) : Option AgeBucket :=
  (ages.filterMap bucketOf).find? (fun b => decide (b.left ≤ age ∧ age < b.right))

/-- Decimal rendering of an integer endpoint, as Python `str` at line 77. -/
def intChars (n : Int) : List Char := (Int.repr n).data

/-- The `AGE_CAT` string of a bucket (line 77):
`str(x.left) + "_" + str(x.right - 1)`. -/
def age_cat (b : AgeBucket) : List Char :=
  intChars b.left ++ '_' :: intChars (b.right - 1)

/-- Python `str.upper` on an ASCII string, character by character. -/
def upperL (l : List Char) : List Char := l.map Char.toUpper

/-- Python `str.lower` on an ASCII string, character by character. -/
def lowerL (l : List Char) : List Char := l.map Char.toLower

/-- The key concatenation of line 82:
`x[0].upper() + "_" + x[1].upper() + "_" + x[2].upper() + "_" + x[5].upper()`
where `x[5]` is the `AGE_CAT` string. -/
def customers_level_based (c p s cat : List Char) : List Char :=
  upperL c ++ '_' :: (upperL p ++ '_' :: (upperL s ++ '_' :: upperL cat))

/-- Persona key built from the four categorical attributes. -/
def build (c p s : List Char) (b : AgeBucket) : List Char :=
  customers_level_based c p s (age_cat b)

/-- Split a string at every delimiter `'_'` (used only to reason about
the unambiguous decomposition of built keys). -/
def splitU : List Char → List (List Char)
  | [] => [[]]
  | c :: rest =>
    if c = '_' then [] :: splitU rest
    else
      match splitU rest with
      | [] => [[c]]
      | p :: ps => (c :: p) :: ps

/-- The grouping tuple of the first groupby (line 69):
`(COUNTRY, SOURCE, SEX, AGE)`. -/
def tupleOf (r : Record) : List Char × List Char × List Char × Int :=
  (r.country, r.source, r.sex, r.age)

/-- Arithmetic mean of a list of rationals (`groupby(...).agg("mean")`). -/
def meanQ (xs : List ℚ) : ℚ := xs.sum / (xs.length : ℚ)

/-- Mean price of exactly the records carrying a given raw 4-tuple. -/
def groupMean (records : List Record) (t : List Char × List Char × List Char × Int) : ℚ :=
  meanQ ((records.filter (fun r => decide (tupleOf r = t))).map Record.price)

/-- Stage-1 aggregation (script line 69):
`df.groupby(["COUNTRY","SOURCE","SEX","AGE"])["PRICE"].agg("mean")` —
one row per distinct raw 4-tuple, holding the mean price of exactly the
records with that tuple.  (The script then sorts by value; order is
irrelevant here.) -/
def agg_df (records : List Record) :
    List ((List Char × List Char × List Char × Int) × ℚ) :=
  ((records.map tupleOf).dedup).map (fun t => (t, groupMean records t))

/-- The `AGE` column of `agg_df`, which `define_interval` consults. -/
def agg_ages (records : List Record) : List Int :=
  (agg_df records).map (fun row => row.1.2.2.2)

/-- The derived persona key of a stage-1 tuple: bucket its age
(line 75), render `AGE_CAT` (line 77), concatenate (line 82); `none`
when the age is uncovered (where the script itself would fail on NaN). -/
def tupleKey (t : List Char × List Char × List Char × Int) : Option (List Char) :=
  (bucketOf t.2.2.2).map (fun b => build t.1 t.2.1 t.2.2.1 b)

/-- Stage-1 rows with their derived persona keys (lines 75-82):
`(customers_level_based, PRICE)` pairs. -/
def agg_rows (records : List Record) : List (List Char × ℚ) :=
  (agg_df records).filterMap
    (fun row => (tupleKey row.1).map (fun k => (k, row.2)))

/-- Stage-2 aggregation (lines 85-86):
`agg_df[["customers_level_based","PRICE"]].groupby("customers_level_based")["PRICE"].agg("mean")`
— one row per distinct key, averaging the stage-1 mean prices of the
rows carrying that key. -/
def agg_df_final (records : List Record) : List (List Char × ℚ) :=
  (((agg_rows records).map Prod.fst).dedup).map
    (fun k => (k, meanQ (((agg_rows records).filter (fun row => decide (row.1 = k))).map Prod.snd)))

/-- The derived persona key of a raw record: the key its group row
carries in the final table. -/
def recordKey (r : Record) : Option (List Char) := tupleKey (tupleOf r)

/-- The distinct raw 4-tuples of the batch whose derived key is `k`:
the stage-1 rows the final groupby averages for persona `k`. -/
def groupTuples (records : List Record) (k : List Char) :
    List (List Char × List Char × List Char × Int) :=
  ((records.map tupleOf).dedup).filter (fun t => decide (tupleKey t = some k))

/-- The stage-1 subgroup means feeding persona `k`: one mean per
distinct raw tuple deriving `k`, each taken over that tuple's own
records. -/
def groupMeans (records : List Record) (k : List Char) : List ℚ :=
  (groupTuples records k).map (groupMean records)

/-- The `PRICE` column of the final table, which `pd.qcut` bins. -/
def pricesOf (records : List Record) : List ℚ :=
  (agg_df_final records).map Prod.snd

/-- The four segment labels of line 95, in the order passed to
`pd.qcut(..., labels=["D","C","B","A"])`: `D` is the lowest-revenue
quartile, `A` the highest. -/
inductive Segment where
  | D : Segment
  | C : Segment
  | B : Segment
  | A : Segment
deriving DecidableEq

/-- Revenue rank of a segment label, lowest to highest. -/
def Segment.rank : Segment → Nat
  | .D => 0
  | .C => 1
  | .B => 2
  | .A => 3

/-- qcut's labels in bin order. -/
def segments : List Segment := [.D, .C, .B, .A]

/-- The values sorted ascending, as numpy sorts before taking
quantiles. -/
def sortedPrices (values : List ℚ) : List ℚ :=
  values.insertionSort (· ≤ ·)

/-- Linear-interpolation quantile at probability `k/4` of a sorted list
(the numpy default used by `pd.qcut`): with `h = (k/4)·(n-1)`, the value
`s[⌊h⌋] + (h - ⌊h⌋)·(s[⌊h⌋+1] - s[⌊h⌋])`. -/
def quantileAt (s : List ℚ) (k : Nat) : ℚ :=
  ((fun h => s.getD (Int.floor h).toNat 0
      + (h - Int.floor h) * (s.getD ((Int.floor h).toNat + 1) 0 - s.getD (Int.floor h).toNat 0))
    ((k * (s.length - 1) : ℕ) / 4 : ℚ))

/-- The upper bin edges of `pd.qcut(values, 4)`: the quantiles at
probabilities 1/4, 2/4, 3/4 and 1. -/
def innerEdges (values : List ℚ) : List ℚ :=
  [quantileAt (sortedPrices values) 1, quantileAt (sortedPrices values) 2,
   quantileAt (sortedPrices values) 3, quantileAt (sortedPrices values) 4]

/-- qcut bin index of a value: bins are right-closed between the
quantile edges, the lowest bin including the minimum, so a value falls
in the first bin whose upper edge is at least the value. -/
def segIdx (values : List ℚ) (v : ℚ) : Nat :=
  (innerEdges values).findIdx (fun e => decide (v ≤ e))

/-- Segment label `pd.qcut` assigns to a value of the `PRICE` column;
`none` if the value lies above every edge (never happens for a value of
the column itself). -/
def segLabelOf (values : List ℚ) (v : ℚ) : Option Segment :=
  segments[segIdx values v]?

/-- The final table with its `SEGMENT` column (line 95). -/
def tableWithSegments (records : List Record) : List (List Char × ℚ × Segment) :=
  (agg_df_final records).filterMap
    (fun row => (segLabelOf (pricesOf records) row.2).map (fun s => (row.1, row.2, s)))

/-- The table query of `clb_age` (lines 177-183):
`agg_df_final[agg_df_final["customers_level_based"] == person]`, with
the empty filtrate reported as "No such persona exists.", here `none`.
The table is only read, never written. -/
def lookupResult (table : List (List Char × ℚ × Segment)) (k : List Char) :
    Option (List (List Char × ℚ × Segment)) :=
  ((fun found => if found.length = 0 then none else some found)
    (table.filter (fun row => decide (row.1 = k))))

/-- `clb_country` validation (lines 135-143): the input is truncated to
its first three characters, lowercased, and looked up among the observed
`COUNTRY` values. -/
def clb_country_accepts (observed : List (List Char)) (inp : List Char) : Bool :=
  decide (lowerL (inp.take 3) ∈ observed)

/-- The country value `clb_country` passes on when it accepts:
`country = input()[:3]` (line 138). -/
def clb_country_resolved (inp : List Char) : List Char := inp.take 3

/-- `clb_source` validation (lines 146-153): the full input string,
lowercased, is looked up among the observed `SOURCE` values. -/
def clb_source_accepts (observed : List (List Char)) (inp : List Char) : Bool :=
  decide (lowerL inp ∈ observed)

/-- `clb_sex` validation (lines 156-163): the full input string,
lowercased, is looked up among the observed `SEX` values. -/
def clb_sex_accepts (observed : List (List Char)) (inp : List Char) : Bool :=
  decide (lowerL inp ∈ observed)

/-- A concrete batch: two records of the same persona group at age 25
and one at age 26, with unequal subgroup sizes (prices 10, 10, 40). -/
def recsC1 : List Record :=
  [⟨['u'], ['a'], ['f'], 25, 10⟩, ⟨['u'], ['a'], ['f'], 25, 10⟩, ⟨['u'], ['a'], ['f'], 26, 40⟩]

/-- The persona key all three records of `recsC1` derive:
`U_A_F_24_30`. -/
def keyC1 : List Char := ['U','_','A','_','F','_','2','4','_','3','0']

/-- A concrete batch with two distinct personas (sexes `f` and `m`),
mean prices 10 and 40. -/
def recsW : List Record :=
  [⟨['u'], ['a'], ['f'], 25, 10⟩, ⟨['u'], ['a'], ['m'], 25, 40⟩]

/-- The two persona keys of `recsW`. -/
def keyWF : List Char := ['U','_','A','_','F','_','2','4','_','3','0']

/-- The male-persona key of `recsW`. -/
def keyWM : List Char := ['U','_','A','_','M','_','2','4','_','3','0']

/-! ### Bucket lemmas -/

theorem mem_buckets_of_bucketOf {a : Int} {b : AgeBucket} (h : bucketOf a = some b) :
    b ∈ buckets :=
  List.mem_of_find?_eq_some h

theorem bucketOf_contains {a : Int} {b : AgeBucket} (h : bucketOf a = some b) :
    b.left ≤ a ∧ a < b.right := by
  unfold bucketOf at h
  exact of_decide_eq_true
    (@List.find?_some _ (fun y : AgeBucket => decide (y.left ≤ a ∧ a < y.right)) _ _ h)

theorem bucket_unique {a : Int} {b b' : AgeBucket} (hb : b ∈ buckets) (hb' : b' ∈ buckets)
    (h1 : b.left ≤ a) (h2 : a < b.right) (h3 : b'.left ≤ a) (h4 : a < b'.right) :
    b = b' := by
  simp only [buckets, bucketBounds, List.zip, List.tail, List.zipWith, List.map,
    List.mem_cons, List.not_mem_nil, or_false] at hb hb'
  rcases hb with rfl | rfl | rfl | rfl | rfl <;>
    rcases hb' with rfl | rfl | rfl | rfl | rfl <;> simp_all <;> omega

theorem bucketOf_isSome {a : Int} (h0 : 0 ≤ a) (h1 : a < 70) :
    ∃ b, bucketOf a = some b := by
  apply Option.isSome_iff_exists.mp
  apply List.find?_isSome.mpr
  rcases lt_or_le a 19 with h | h
  · exact ⟨⟨0, 19⟩, by decide, by simp; omega⟩
  rcases lt_or_le a 24 with h2 | h2
  · exact ⟨⟨19, 24⟩, by decide, by simp; omega⟩
  rcases lt_or_le a 31 with h3 | h3
  · exact ⟨⟨24, 31⟩, by decide, by simp; omega⟩
  rcases lt_or_le a 41 with h4 | h4
  · exact ⟨⟨31, 41⟩, by decide, by simp; omega⟩
  · exact ⟨⟨41, 70⟩, by decide, by simp; omega⟩

theorem define_interval_eq_some {ages : List Int} {a : Int} {b : AgeBucket}
    (hb : bucketOf a = some b) (hx : ∃ x ∈ ages, bucketOf x = some b) :
    define_interval ages a = some b := by
  obtain ⟨x, hx1, hx2⟩ := hx
  have hmem : b ∈ ages.filterMap bucketOf := List.mem_filterMap.mpr ⟨x, hx1, hx2⟩
  have hcont := bucketOf_contains hb
  have hp : decide (b.left ≤ a ∧ a < b.right) = true := decide_eq_true hcont
  obtain ⟨y, hy⟩ := Option.isSome_iff_exists.mp
    ((@List.find?_isSome _ (ages.filterMap bucketOf)
      (fun y : AgeBucket => decide (y.left ≤ a ∧ a < y.right))).mpr ⟨b, hmem, hp⟩)
  have hyp : y.left ≤ a ∧ a < y.right := of_decide_eq_true
    (@List.find?_some _ (fun y : AgeBucket => decide (y.left ≤ a ∧ a < y.right)) _ _ hy)
  obtain ⟨x', _, hbx'⟩ := List.mem_filterMap.mp (List.mem_of_find?_eq_some hy)
  have hyb : y = b := bucket_unique (mem_buckets_of_bucketOf hbx') (mem_buckets_of_bucketOf hb)
    hyp.1 hyp.2 hcont.1 hcont.2
  subst hyb
  unfold define_interval
  exact hy

theorem bucketOf_eq_none {a : Int} (h : a < 0 ∨ 70 ≤ a) : bucketOf a = none := by
  apply List.find?_eq_none.mpr
  intro b hb
  simp only [buckets, bucketBounds, List.zip, List.tail, List.zipWith, List.map,
    List.mem_cons, List.not_mem_nil, or_false] at hb
  rcases hb with rfl | rfl | rfl | rfl | rfl <;> simp <;> omega

theorem define_interval_eq_none {ages : List Int} {a : Int} (h : a < 0 ∨ 70 ≤ a) :
    define_interval ages a = none := by
  apply List.find?_eq_none.mpr
  intro b hbmem
  obtain ⟨x, _, hbx⟩ := List.mem_filterMap.mp hbmem
  have hb := mem_buckets_of_bucketOf hbx
  simp only [buckets, bucketBounds, List.zip, List.tail, List.zipWith, List.map,
    List.mem_cons, List.not_mem_nil, or_false] at hb
  rcases hb with rfl | rfl | rfl | rfl | rfl <;> simp <;> omega

/-! ### Claims C2, C3, C4 -/

/-- C2: for every integer age `a` with `0 ≤ a < 70` (boundaries
0,19,24,31,41,70) there is exactly one configured bucket
`[b_i, b_{i+1})` containing `a` — the buckets partition `[0,70)` with no
gaps or overlaps — and the lookup-time bucketizer `define_interval`
returns exactly that bucket.  `define_interval` scans the buckets of the
ages observed in the aggregation table, so the statement carries the
hypothesis that `a`'s bucket occurs there, which holds in particular for
every age the table itself contains. -/
theorem c2_bucket_partition (ages : List Int) (a : Int)
    (h0 : 0 ≤ a) (h1 : a < 70)
    (hobs : ∃ x ∈ ages, bucketOf x = bucketOf a) :
    ∃ b ∈ buckets, bucketOf a = some b ∧ b.left ≤ a ∧ a < b.right ∧
      define_interval ages a = some b ∧
      ∀ b' ∈ buckets, b'.left ≤ a → a < b'.right → b' = b := by
  obtain ⟨b, hb⟩ := bucketOf_isSome h0 h1
  obtain ⟨x, hx1, hx2⟩ := hobs
  rw [hb] at hx2
  have hc := bucketOf_contains hb
  exact ⟨b, mem_buckets_of_bucketOf hb, hb, hc.1, hc.2,
    define_interval_eq_some hb ⟨x, hx1, hx2⟩,
    fun b' hb' h3 h4 => bucket_unique hb' (mem_buckets_of_bucketOf hb) h3 h4 hc.1 hc.2⟩

/-- Witness for C2 at age 25 over an observed-age list containing 25. -/
theorem c2_bucket_partition_witness :
    ∃ b ∈ buckets, bucketOf 25 = some b ∧ b.left ≤ 25 ∧ (25:Int) < b.right ∧
      define_interval [25] 25 = some b ∧
      ∀ b' ∈ buckets, b'.left ≤ 25 → (25:Int) < b'.right → b' = b :=
  c2_bucket_partition [25] 25 (by decide) (by decide) ⟨25, by decide, rfl⟩

/-- C3: for every age of the aggregation table in the covered range, the
bucket assigned during table construction (`pd.cut`, modelled by
`bucketOf`) coincides with the bucket the lookup-time `define_interval`
returns for that age: the two bucketing implementations agree on the
covered ages of the batch. -/
theorem c3_construction_lookup_agree (records : List Record) (a : Int)
    (ha : a ∈ agg_ages records) (h0 : 0 ≤ a) (h1 : a < 70) :
    define_interval (agg_ages records) a = bucketOf a := by
  obtain ⟨b, hb⟩ := bucketOf_isSome h0 h1
  rw [hb]
  exact define_interval_eq_some hb ⟨a, ha, hb⟩

/-- Witness for C3 on the concrete batch `recsC1` at age 25. -/
theorem c3_construction_lookup_agree_witness :
    define_interval (agg_ages recsC1) 25 = bucketOf 25 :=
  c3_construction_lookup_agree recsC1 25 (by decide) (by decide) (by decide)

/-- C4: for every integer age outside `[0, 70)` the bucketizer fails
explicitly: construction-time bucketing (`pd.cut`) yields no bucket
(NaN, modelled `none`) and the lookup-time `define_interval` falls
through its loop and returns Python `None` (modelled `none`) — neither
ever returns some arbitrary bucket. -/
theorem c4_unbucketable_age (ages : List Int) (a : Int) (h : a < 0 ∨ 70 ≤ a) :
    bucketOf a = none ∧ define_interval ages a = none :=
  ⟨bucketOf_eq_none h, define_interval_eq_none h⟩

/-- Witness for C4 at age 70, just past the last boundary. -/
theorem c4_unbucketable_age_witness :
    bucketOf 70 = none ∧ define_interval [25] 70 = none :=
  c4_unbucketable_age [25] 70 (Or.inr (by decide))

/-! ### Aggregation lemmas and claim C1 -/

theorem agg_rows_filter_key (records : List Record) (k : List Char) :
    (agg_rows records).filter (fun row => decide (row.1 = k)) =
      (groupTuples records k).map (fun t => (k, groupMean records t)) := by
  unfold agg_rows agg_df groupTuples
  generalize (records.map tupleOf).dedup = l
  induction l with
  | nil => simp
  | cons t l ih =>
    simp only [List.filterMap_map] at ih
    simp only [List.map_cons, List.filterMap_cons]
    cases h : tupleKey t with
    | none => simpa [List.filter_cons, h] using ih
    | some k' =>
      by_cases hk : k' = k
      · subst hk
        simp [List.filter_cons, h, ih]
      · simp [List.filter_cons, h, hk, ih]

/-- C1 counterexample: on the batch `recsC1` (prices 10, 10 at age 25
and 40 at age 26, all in persona `U_A_F_24_30`) the table stores
mean 25 — the mean of the two per-age means 10 and 40 — while the
arithmetic mean of `price` over exactly the records deriving that key is
(10+10+40)/3 = 20, so the stored value is not the raw-record mean. -/
theorem c1_counterexample :
    (keyC1, (25:ℚ)) ∈ agg_df_final recsC1 ∧
    meanQ ((recsC1.filter (fun r => decide (recordKey r = some keyC1))).map Record.price) = 20 ∧
    (25:ℚ) ≠ 20 := by
  refine ⟨?_, ?_, by norm_num⟩
  · rw [show agg_df_final recsC1 = [(keyC1, meanQ [meanQ [(10:ℚ), 10], meanQ [40]])] from rfl,
      show meanQ [meanQ [(10:ℚ), 10], meanQ [40]] = 25 from by norm_num [meanQ]]
    exact List.mem_singleton.mpr rfl
  · rw [show (recsC1.filter (fun r => decide (recordKey r = some keyC1))).map Record.price
        = [(10:ℚ), 10, 40] from rfl]
    norm_num [meanQ]

/-- C1 (amended): for every persona of the final table, the stored
`mean_price` is the arithmetic mean of the stage-1 subgroup means — one
mean per distinct (country, platform, sex, age) tuple whose derived key
equals the persona's key, each taken over exactly that tuple's records —
over no more and no fewer subgroups; at least one subgroup exists.  (It
is a mean of per-age-group means, which differs from the raw-record mean
whenever subgroup sizes differ, as `c1_counterexample` shows.) -/
theorem c1_mean_of_means (records : List Record) (k : List Char) (m : ℚ)
    (hk : (k, m) ∈ agg_df_final records) :
    1 ≤ (groupMeans records k).length ∧
    m = meanQ (groupMeans records k) ∧
    m * ((groupMeans records k).length : ℚ) = (groupMeans records k).sum := by
  unfold agg_df_final at hk
  obtain ⟨k', hk', heq⟩ := List.mem_map.mp hk
  have h1 : k' = k := congrArg Prod.fst heq
  subst h1
  have h2 : meanQ (((agg_rows records).filter
      (fun row => decide (row.1 = k'))).map Prod.snd) = m := congrArg Prod.snd heq
  have hfilter := agg_rows_filter_key records k'
  have hm : m = meanQ (groupMeans records k') := by
    rw [← h2, hfilter, groupMeans, List.map_map]
    rfl
  have hlen : 1 ≤ (groupMeans records k').length := by
    have hk2 : k' ∈ (agg_rows records).map Prod.fst := List.mem_dedup.mp hk'
    obtain ⟨row, hrow, hfst⟩ := List.mem_map.mp hk2
    have hmem : row ∈ (agg_rows records).filter (fun row => decide (row.1 = k')) :=
      List.mem_filter.mpr ⟨hrow, decide_eq_true hfst⟩
    rw [hfilter] at hmem
    have hpos := List.length_pos_of_mem hmem
    simpa [groupMeans] using hpos
  have hne : (((groupMeans records k').length : ℚ)) ≠ 0 :=
    Nat.cast_ne_zero.mpr (by omega)
  exact ⟨hlen, hm, by rw [hm, meanQ, div_mul_cancel₀ _ hne]⟩

/-- Witness for the amended C1 on the concrete batch `recsC1`. -/
theorem c1_mean_of_means_witness :
    1 ≤ (groupMeans recsC1 keyC1).length ∧
    (25:ℚ) = meanQ (groupMeans recsC1 keyC1) ∧
    (25:ℚ) * ((groupMeans recsC1 keyC1).length : ℚ) = (groupMeans recsC1 keyC1).sum :=
  c1_mean_of_means recsC1 keyC1 25 (by
    rw [show agg_df_final recsC1 = [(keyC1, meanQ [meanQ [(10:ℚ), 10], meanQ [40]])] from rfl,
      show meanQ [meanQ [(10:ℚ), 10], meanQ [40]] = 25 from by norm_num [meanQ]]
    exact List.mem_singleton.mpr rfl)

/-! ### Key builder lemmas and claims C7, C8 -/

theorem splitU_no_delim {xs : List Char} (h : '_' ∉ xs) : splitU xs = [xs] := by
  induction xs with
  | nil => rfl
  | cons c rest ih =>
    have hc : c ≠ '_' := fun e => h (e ▸ List.mem_cons_self c rest)
    have hr : '_' ∉ rest := fun m => h (List.mem_cons_of_mem c m)
    simp [splitU, hc, ih hr]

theorem splitU_append {xs ys : List Char} (h : '_' ∉ xs) :
    splitU (xs ++ '_' :: ys) = xs :: splitU ys := by
  induction xs with
  | nil => simp [splitU]
  | cons c rest ih =>
    have hc : c ≠ '_' := fun e => h (e ▸ List.mem_cons_self c rest)
    have hr : '_' ∉ rest := fun m => h (List.mem_cons_of_mem c m)
    simp [splitU, hc, ih hr]

theorem toUpper_eq_underscore {c : Char} (h : Char.toUpper c = '_') : c = '_' := by
  by_cases hc : c.toNat ≥ 97 ∧ c.toNat ≤ 122
  · exfalso
    unfold Char.toUpper at h
    rw [if_pos hc] at h
    have hv : (c.toNat - 32).isValidChar := Or.inl (by omega)
    rw [Char.ofNat, dif_pos hv] at h
    have h2 := congrArg Char.toNat h
    rw [show (Char.ofNatAux (c.toNat - 32) hv).toNat = c.toNat - 32 from rfl] at h2
    rw [show ('_').toNat = 95 from rfl] at h2
    omega
  · unfold Char.toUpper at h
    rw [if_neg hc] at h
    exact h

theorem underscore_not_mem_upperL {l : List Char} (h : '_' ∉ l) : '_' ∉ upperL l := by
  intro hm
  obtain ⟨c, hc, he⟩ := List.mem_map.mp hm
  exact h (toUpper_eq_underscore he ▸ hc)

theorem upper_age_cat : ∀ b ∈ buckets, upperL (age_cat b) = age_cat b := by decide

theorem bucket_inj_of_chars : ∀ b1 ∈ buckets, ∀ b2 ∈ buckets,
    intChars b1.left = intChars b2.left →
    intChars (b1.right - 1) = intChars (b2.right - 1) → b1 = b2 := by decide

theorem age_cat_no_delim : ∀ b ∈ buckets,
    '_' ∉ intChars b.left ∧ '_' ∉ intChars (b.right - 1) := by decide

theorem splitU_build (c p s : List Char) (b : AgeBucket) (hb : b ∈ buckets)
    (hc : '_' ∉ c) (hp : '_' ∉ p) (hs : '_' ∉ s) :
    splitU (build c p s b) =
      [upperL c, upperL p, upperL s, intChars b.left, intChars (b.right - 1)] := by
  unfold build customers_level_based
  rw [upper_age_cat b hb]
  rw [splitU_append (underscore_not_mem_upperL hc),
    splitU_append (underscore_not_mem_upperL hp),
    splitU_append (underscore_not_mem_upperL hs)]
  unfold age_cat
  rw [splitU_append (age_cat_no_delim b hb).1, splitU_no_delim (age_cat_no_delim b hb).2]

/-- C7 counterexample: two distinct 4-tuples from the categorical
domains (fields free of the delimiter, bucket among the configured
buckets) that differ only in letter case build the same key, because the
builder uppercases each field first — the key builder is not injective
as stated. -/
theorem c7_counterexample :
    build ['u'] ['a'] ['f'] ⟨24, 31⟩ = build ['U'] ['a'] ['f'] ⟨24, 31⟩ ∧
    (['u'], ['a'], ['f'], (⟨24, 31⟩ : AgeBucket)) ≠ (['U'], ['a'], ['f'], (⟨24, 31⟩ : AgeBucket)) ∧
    (⟨24, 31⟩ : AgeBucket) ∈ buckets ∧
    '_' ∉ ['u'] ∧ '_' ∉ ['U'] ∧ '_' ∉ ['a'] ∧ '_' ∉ ['f'] := by decide

/-- C7 (amended): the key builder is injective up to case
normalization: for 4-tuples whose country, platform and sex codes do not
contain the delimiter and whose buckets are configured buckets, equal
built keys force the uppercased codes and the buckets to coincide —
hence any two tuples that remain distinct after uppercasing the three
text fields build distinct keys. -/
theorem c7_injective_up_to_case (c1 p1 s1 c2 p2 s2 : List Char) (b1 b2 : AgeBucket)
    (hb1 : b1 ∈ buckets) (hb2 : b2 ∈ buckets)
    (hc1 : '_' ∉ c1) (hp1 : '_' ∉ p1) (hs1 : '_' ∉ s1)
    (hc2 : '_' ∉ c2) (hp2 : '_' ∉ p2) (hs2 : '_' ∉ s2)
    (heq : build c1 p1 s1 b1 = build c2 p2 s2 b2) :
    upperL c1 = upperL c2 ∧ upperL p1 = upperL p2 ∧ upperL s1 = upperL s2 ∧ b1 = b2 := by
  have h := congrArg splitU heq
  rw [splitU_build c1 p1 s1 b1 hb1 hc1 hp1 hs1,
    splitU_build c2 p2 s2 b2 hb2 hc2 hp2 hs2] at h
  simp only [List.cons.injEq, and_true] at h
  exact ⟨h.1, h.2.1, h.2.2.1, bucket_inj_of_chars b1 hb1 b2 hb2 h.2.2.2.1 h.2.2.2.2⟩

/-- Witness for the amended C7 at concrete fields differing in case. -/
theorem c7_injective_up_to_case_witness :
    upperL ['t','u','r'] = upperL ['T','u','r'] ∧ upperL ['a'] = upperL ['a'] ∧
    upperL ['f'] = upperL ['f'] ∧ (⟨24, 31⟩ : AgeBucket) = ⟨24, 31⟩ :=
  c7_injective_up_to_case ['t','u','r'] ['a'] ['f'] ['T','u','r'] ['a'] ['f'] ⟨24, 31⟩ ⟨24, 31⟩
    (by decide) (by decide) (by decide) (by decide) (by decide)
    (by decide) (by decide) (by decide) (by decide)

/-- C8: every built key is the uppercase of country, platform and sex
concatenated with the fixed delimiter in fixed order, followed by the
bucket's low endpoint and its inclusive upper bound `right - 1`; ages 25
and 26 both fall in bucket `[24, 31)`, whose external form is `24_30`,
and a full example key is `US_ANDROID_FEMALE_24_30`. -/
theorem c8_key_format :
    (∀ (c p s : List Char) (b : AgeBucket), b ∈ buckets →
      build c p s b = upperL c ++ '_' :: (upperL p ++ '_' :: (upperL s ++ '_' ::
        (intChars b.left ++ '_' :: intChars (b.right - 1))))) ∧
    bucketOf 25 = some ⟨24, 31⟩ ∧ bucketOf 26 = some ⟨24, 31⟩ ∧
    age_cat ⟨24, 31⟩ = ['2','4','_','3','0'] ∧
    build ['u','s'] ['a','n','d','r','o','i','d'] ['f','e','m','a','l','e'] ⟨24, 31⟩
      = ['U','S','_','A','N','D','R','O','I','D','_','F','E','M','A','L','E','_','2','4','_','3','0'] := by
  refine ⟨?_, by decide, by decide, by decide, by decide⟩
  intro c p s b hb
  unfold build customers_level_based
  rw [upper_age_cat b hb]
  rfl

/-- Witness for C8's general format clause at a concrete tuple. -/
theorem c8_key_format_witness :
    build ['t'] ['i'] ['f'] ⟨0, 19⟩ = upperL ['t'] ++ '_' :: (upperL ['i'] ++ '_' ::
      (upperL ['f'] ++ '_' :: (intChars (AgeBucket.mk 0 19).left ++ '_' ::
        intChars ((AgeBucket.mk 0 19).right - 1)))) :=
  c8_key_format.1 ['t'] ['i'] ['f'] ⟨0, 19⟩ (by decide)

/-! ### Claims C9, C10 -/

/-- C9: querying the final table for a syntactically valid key that no
aggregation row carries filters down to an empty frame, which `clb_age`
reports as "No such persona exists." — modelled as `none`, never a
default or zero row; `lookupResult` only reads the table, so the table
is unchanged. -/
theorem c9_lookup_notfound (records : List Record) (k : List Char)
    (h : ∀ row ∈ agg_df_final records, row.1 ≠ k) :
    lookupResult (tableWithSegments records) k = none := by
  have hfil : (tableWithSegments records).filter (fun row => decide (row.1 = k)) = [] := by
    apply List.filter_eq_nil_iff.mpr
    intro row hrow
    obtain ⟨row', hrow', hmap⟩ := List.mem_filterMap.mp hrow
    obtain ⟨seg, _, hback⟩ := Option.map_eq_some'.mp hmap
    have : row.1 = row'.1 := by rw [← hback]
    simp only [decide_eq_true_eq, this]
    exact h row' hrow'
  unfold lookupResult
  rw [hfil]
  rfl

/-- Witness for C9: the key `X` was never produced over `recsW`. -/
theorem c9_lookup_notfound_witness :
    lookupResult (tableWithSegments recsW) ['X'] = none :=
  c9_lookup_notfound recsW ['X'] (by
    intro row hrow
    rw [show agg_df_final recsW = [(keyWF, meanQ [meanQ [(10:ℚ)]]), (keyWM, meanQ [meanQ [(40:ℚ)]])] from rfl]
      at hrow
    rcases List.mem_cons.mp hrow with h1 | h2
    · rw [h1]
      decide
    · rw [List.mem_singleton.mp h2]
      decide)

/-- C10: the lookup service truncates the country input to its first
three characters and validates the lowercased prefix against the
observed country codes — so any input whose 3-character prefix matches
case-insensitively is accepted, e.g. `turkey` is accepted and resolved
as the country `tur` — while the platform and sex inputs are validated
on the full lowercased string, so `turkey` would not validate as a
source even if `tur` were an observed source value. -/
theorem c10_country_truncation :
    (∀ (observed : List (List Char)) (inp : List Char),
      clb_country_accepts observed inp = true ↔ lowerL (inp.take 3) ∈ observed) ∧
    clb_country_accepts [['t','u','r']] ['t','u','r','k','e','y'] = true ∧
    clb_country_resolved ['t','u','r','k','e','y'] = ['t','u','r'] ∧
    clb_country_accepts [['t','u','r']] ['T','U','R','k','e','y'] = true ∧
    (∀ (observed : List (List Char)) (inp : List Char),
      clb_source_accepts observed inp = true ↔ lowerL inp ∈ observed) ∧
    (∀ (observed : List (List Char)) (inp : List Char),
      clb_sex_accepts observed inp = true ↔ lowerL inp ∈ observed) ∧
    clb_source_accepts [['t','u','r']] ['t','u','r','k','e','y'] = false :=
  ⟨fun _ _ => by simp [clb_country_accepts], by decide, by decide, by decide,
    fun _ _ => by simp [clb_source_accepts], fun _ _ => by simp [clb_sex_accepts], by decide⟩

/-! ### Segmentation lemmas and claims C5, C6 -/

theorem findIdx_mono {α : Type} (p q : α → Bool) (himp : ∀ a, p a = true → q a = true) :
    ∀ l : List α, l.findIdx q ≤ l.findIdx p := by
  intro l
  induction l with
  | nil => simp
  | cons a t ih =>
    rw [List.findIdx_cons, List.findIdx_cons]
    cases hp : p a with
    | true => simp [himp a hp]
    | false =>
      cases hq : q a with
      | true => simp
      | false => simpa using ih

theorem le_getD_last_of_sorted {s : List ℚ} (hs : List.Sorted (· ≤ ·) s) {v : ℚ}
    (hv : v ∈ s) : v ≤ s.getD (s.length - 1) 0 := by
  induction s with
  | nil => cases hv
  | cons a t ih =>
    rcases List.mem_cons.mp hv with rfl | hvt
    · cases t with
      | nil => simp [List.getD]
      | cons b u =>
        have hlt : (b :: u).length - 1 < (b :: u).length := by simp
        have hmem : (b :: u).getD ((b :: u).length - 1) 0 ∈ (b :: u) := by
          rw [List.getD_eq_getElem _ _ hlt]
          exact List.getElem_mem hlt
        have h1 : v ≤ (b :: u).getD ((b :: u).length - 1) 0 :=
          (List.sorted_cons.mp hs).1 _ hmem
        simpa using h1
    · have h1 := ih (List.sorted_cons.mp hs).2 hvt
      cases t with
      | nil => cases hvt
      | cons b u => simpa using h1

theorem quantileAt_four (s : List ℚ) :
    quantileAt s 4 = s.getD (s.length - 1) 0 := by
  unfold quantileAt
  have hq : ((4 * (s.length - 1) : ℕ) : ℚ) / 4 = ((s.length - 1 : ℕ) : ℚ) := by
    rw [Nat.cast_mul]
    norm_num
  rw [hq]
  simp [Int.floor_natCast]

theorem le_quantile_four {values : List ℚ} {v : ℚ} (hv : v ∈ values) :
    v ≤ quantileAt (sortedPrices values) 4 := by
  have hperm := List.perm_insertionSort (· ≤ ·) values
  have hv' : v ∈ sortedPrices values := hperm.mem_iff.mpr hv
  have hsorted : List.Sorted (· ≤ ·) (sortedPrices values) :=
    List.sorted_insertionSort (· ≤ ·) values
  rw [quantileAt_four]
  exact le_getD_last_of_sorted hsorted hv'

theorem segIdx_lt_four {values : List ℚ} {v : ℚ} (hv : v ∈ values) :
    segIdx values v < 4 := by
  have h4 := le_quantile_four hv
  have hlt : (innerEdges values).findIdx (fun e => decide (v ≤ e)) < (innerEdges values).length :=
    List.findIdx_lt_length_of_exists
      ⟨quantileAt (sortedPrices values) 4, by simp [innerEdges], decide_eq_true h4⟩
  simpa [innerEdges] using hlt

theorem segLabelOf_rank {values : List ℚ} {v : ℚ} (hv : v ∈ values) :
    ∃ s, segLabelOf values v = some s ∧ s ∈ segments ∧ s.rank = segIdx values v := by
  have hlt := segIdx_lt_four hv
  unfold segLabelOf
  set i := segIdx values v with hi
  interval_cases i
  · exact ⟨.D, rfl, by decide, rfl⟩
  · exact ⟨.C, rfl, by decide, rfl⟩
  · exact ⟨.B, rfl, by decide, rfl⟩
  · exact ⟨.A, rfl, by decide, rfl⟩

theorem segIdx_mono {values : List ℚ} {v1 v2 : ℚ} (h : v2 ≤ v1) :
    segIdx values v2 ≤ segIdx values v1 :=
  findIdx_mono _ _ (fun _ he => decide_eq_true (le_trans h (of_decide_eq_true he))) _

theorem sum_map_add {α : Type} (l : List α) (f g : α → ℕ) :
    (l.map (fun x => f x + g x)).sum = (l.map f).sum + (l.map g).sum := by
  induction l with
  | nil => simp
  | cons a t ih =>
    simp only [List.map_cons, List.sum_cons, ih]
    omega

theorem sum_indicator_zero {β : Type} [DecidableEq β] (l0 : β) (t : List β) (h : l0 ∉ t) :
    (t.map (fun l => if l = l0 then 1 else 0)).sum = 0 := by
  induction t with
  | nil => rfl
  | cons a t ih =>
    have ha : a ≠ l0 := fun e => h (e ▸ List.mem_cons_self a t)
    simp [ha, ih (fun m => h (List.mem_cons_of_mem a m))]

theorem sum_indicator_one {β : Type} [DecidableEq β] (l0 : β) (labels : List β)
    (hnd : labels.Nodup) (hmem : l0 ∈ labels) :
    (labels.map (fun l => if l = l0 then 1 else 0)).sum = 1 := by
  induction labels with
  | nil => cases hmem
  | cons a t ih =>
    rcases List.mem_cons.mp hmem with rfl | hmt
    · simp [sum_indicator_zero l0 t (List.nodup_cons.mp hnd).1]
    · have ha : a ≠ l0 := fun e => (List.nodup_cons.mp hnd).1 (e ▸ hmt)
      simp [ha, ih (List.nodup_cons.mp hnd).2 hmt]

theorem count_partition {α β : Type} [DecidableEq β] (labels : List β) (hnd : labels.Nodup)
    (g : α → Option β) (xs : List α)
    (h : ∀ x ∈ xs, ∃ l ∈ labels, g x = some l) :
    (labels.map (fun l => (xs.filter (fun x => decide (g x = some l))).length)).sum
      = xs.length := by
  induction xs with
  | nil => simp
  | cons x xs ih =>
    obtain ⟨l0, hl0, hg⟩ := h x (List.mem_cons_self x xs)
    have hxs : ∀ y ∈ xs, ∃ l ∈ labels, g y = some l :=
      fun y hy => h y (List.mem_cons_of_mem x hy)
    have hsplit : ∀ l : β, (List.filter (fun y => decide (g y = some l)) (x :: xs)).length
        = (if l = l0 then 1 else 0) + (List.filter (fun y => decide (g y = some l)) xs).length := by
      intro l
      rw [List.filter_cons]
      by_cases hll : l = l0
      · subst hll
        simp [hg]
        omega
      · have hne : ¬(g x = some l) := by
          rw [hg]
          intro hcon
          exact hll (Option.some.inj hcon).symm
        simp [hne, hll]
    simp only [hsplit]
    rw [sum_map_add, sum_indicator_one l0 labels hnd hl0, ih hxs, List.length_cons]
    omega

/-- C5: if one persona's stored `mean_price` exceeds another's, its
segment label ranks at least as high, the four labels being ordered
`D < C < B < A` from lowest to highest revenue quartile — the qcut
assignment over the table's price column is monotone. -/
theorem c5_segment_monotone (records : List Record) (k1 k2 : List Char) (v1 v2 : ℚ)
    (h1 : (k1, v1) ∈ agg_df_final records) (h2 : (k2, v2) ∈ agg_df_final records)
    (hlt : v2 < v1) :
    ∃ s1 s2, segLabelOf (pricesOf records) v1 = some s1 ∧
      segLabelOf (pricesOf records) v2 = some s2 ∧ s2.rank ≤ s1.rank := by
  have hv1 : v1 ∈ pricesOf records := List.mem_map_of_mem Prod.snd h1
  have hv2 : v2 ∈ pricesOf records := List.mem_map_of_mem Prod.snd h2
  obtain ⟨s1, hs1, _, hr1⟩ := segLabelOf_rank hv1
  obtain ⟨s2, hs2, _, hr2⟩ := segLabelOf_rank hv2
  refine ⟨s1, s2, hs1, hs2, ?_⟩
  rw [hr1, hr2]
  exact segIdx_mono (le_of_lt hlt)

/-- Witness for C5 on `recsW`, whose two personas have means 40 > 10. -/
theorem c5_segment_monotone_witness :
    ∃ s1 s2, segLabelOf (pricesOf recsW) (meanQ [meanQ [(40:ℚ)]]) = some s1 ∧
      segLabelOf (pricesOf recsW) (meanQ [meanQ [(10:ℚ)]]) = some s2 ∧ s2.rank ≤ s1.rank :=
  c5_segment_monotone recsW keyWM keyWF (meanQ [meanQ [(40:ℚ)]]) (meanQ [meanQ [(10:ℚ)]])
    (by
      rw [show agg_df_final recsW
          = [(keyWF, meanQ [meanQ [(10:ℚ)]]), (keyWM, meanQ [meanQ [(40:ℚ)]])] from rfl]
      exact List.mem_cons_of_mem _ (List.mem_singleton.mpr rfl))
    (by
      rw [show agg_df_final recsW
          = [(keyWF, meanQ [meanQ [(10:ℚ)]]), (keyWM, meanQ [meanQ [(40:ℚ)]])] from rfl]
      exact List.mem_cons_self _ _)
    (by norm_num [meanQ])

/-- C6: qcut assigns every persona of the final table exactly one of the
four segment labels, so the per-segment persona counts sum to the number
of distinct persona keys in the aggregate. -/
theorem c6_segment_partition (records : List Record) :
    (segments.map (fun l =>
      ((agg_df_final records).filter
        (fun row => decide (segLabelOf (pricesOf records) row.2 = some l))).length)).sum
      = (agg_df_final records).length := by
  apply count_partition segments (by decide)
    (fun row => segLabelOf (pricesOf records) row.2) (agg_df_final records)
  intro row hrow
  have hv : row.2 ∈ pricesOf records := List.mem_map_of_mem Prod.snd hrow
  obtain ⟨s, hs, hmem, _⟩ := segLabelOf_rank hv
  exact ⟨s, hmem, hs⟩

/-- C2 counterexample: age 5 lies in the configured bucket `[0,19)`
(`0 ≤ 5 < 70`), yet over an aggregation table whose only observed age is
25 the lookup-time bucketizer returns no bucket at all — it iterates
only over the buckets of the observed ages, so an uninhabited bucket is
never returned and the claimed unconditional coverage fails. -/
theorem c2_missing_bucket_counterexample :
    (0:Int) ≤ 5 ∧ (5:Int) < 70 ∧ define_interval [25] 5 = none ∧
    bucketOf 5 = some ⟨0, 19⟩ := by decide
